import Mathlib

/-!
Verification of the s4 (sasquatch) command grammar and listing actions.

The development shallowly embeds the two core source files:

* `src/sasquatch/grammar/verb.py` — verb-instance construction and validation
  (`BaseVerb.__init__`, `_check_args`, `_resolve_positional`, `_check_kwargs`,
  and the derived views `has`, `needs`, `wants`).
* `src/sasquatch/action/listing.py` — the listing actions (`ListAction`,
  `ListVersionAction`, `ListReplicationAction`) together with the backend
  façade `src/sasquatch/s3/api.py` (`s3api.ls`).

Python dicts are embedded as association lists with Python's insert-or-update
ordering semantics; Python `None` is `Val.none`; fallible dict indexing
(`page['Buckets']`) returns `Except`; the paginated backend is a structure of
page lists supplied per invocation.
-/

set_option autoImplicit false

/-- An opaque source-location context handle (the spec treats contexts as
opaque tokens used only for error reporting). -/
abbrev Ctx := Nat

/-- A noun value as passed to verb construction: an opaque payload carrying a
`context` attribute (read by error paths) and a Python truthiness bit (read
when a value is consumed as the `strict` flag).  The concrete noun class is
outside the two embedded files; only these two observations of it are used by
`grammar/verb.py`. -/
structure Noun where
  context : Ctx
  truthy : Bool
deriving DecidableEq, Repr

/-- A Python value as seen by the listing actions: either `None` or a string. -/
inductive Val where
  | none : Val
  | str (s : String) : Val
deriving DecidableEq, Repr

/-- First-match association-list lookup: `d.get(k)`-style access returning
`Option`. -/
def alookup {β : Type} : List (String × β) → String → Option β
  | [], _ => Option.none
  | (k', v) :: rest, k => if k' = k then some v else alookup rest k

/-- Membership test on an association list's keys (`k in d`). -/
def memKey {β : Type} (d : List (String × β)) (k : String) : Bool :=
  (alookup d k).isSome

/-- Python `d[k] = v`: update the value in place when the key exists (keeping
its position), otherwise append the new binding at the end. -/
def dictSet {β : Type} (d : List (String × β)) (k : String) (v : β) : List (String × β) :=
  if memKey d k then d.map (fun kv => if kv.1 = k then (k, v) else kv)
  else d ++ [(k, v)]

/-- Python `d.update(u)`: apply `dictSet` for each binding of `u` in order. -/
def dictUpdate {β : Type} (d u : List (String × β)) : List (String × β) :=
  u.foldl (fun acc kv => dictSet acc kv.1 kv.2) d

/-- Build a Python dict from a list of pairs (later duplicates win), as a
dict comprehension does. -/
def pyDict {β : Type} (l : List (String × β)) : List (String × β) :=
  dictUpdate [] l

/-- Python `del`-style removal of every binding of a key (dicts hold at most
one); used for the binding captured by a named parameter during `**` calls. -/
def removeKey {β : Type} : List (String × β) → String → List (String × β)
  | [], _ => []
  | (k', v) :: rest, k =>
    if k' = k then removeKey rest k else (k', v) :: removeKey rest k

/-- Membership test `k in l` on a plain list of names. -/
def memStr : List String → String → Bool
  | [], _ => false
  | x :: xs, k => x = k || memStr xs k

/-- Python `list.remove(k)`: drop the first occurrence of `k`. -/
def eraseFirst : List String → String → List String
  | [], _ => []
  | x :: xs, k => if x = k then xs else x :: eraseFirst xs k

/-- The static data of one verb definition: symbol, the three parameter
classification lists, and the optional explicit positional order
(`verb.py` lines 20-30, populated by `verb_builder`). -/
structure VerbDef where
  symbol : String
  hard_required : List String
  soft_required : List String
  optional : List String
  positional_order : Option (List String)
deriving DecidableEq, Repr

/-- Effective positional order: `_positional_order`, defaulting to a copy of
`_soft_required` when it is `None` (`verb.py` lines 34-35). -/
def VerbDef.effPos (d : VerbDef) : List String :=
  d.positional_order.getD d.soft_required

/-- The syntax errors raised during verb construction
(`sasquatch/error/syntax.py` error classes as thrown by `verb.py`). -/
inductive VerbError where
  | tooManyArguments (verb : String) (takes given : Nat) (ctx : Ctx)
  | extraKeyword (verb : String) (keyword : String) (ctx : Ctx)
  | missingKeyword (verb : String) (keyword : String) (ctx : Option Ctx)
deriving DecidableEq, Repr

/-- `BaseVerb._check_args` (`verb.py` lines 41-46): raise `TooManyArgumentsError`
when more positional arguments are given than the effective positional order
holds, attaching the last argument's context. -/
def BaseVerb.check_args (d : VerbDef) (args : List Noun) : Option VerbError :=
  let takes := (VerbDef.effPos d).length
  let given := args.length
  if takes < given then
    match args.getLast? with
    | some a => some (VerbError.tooManyArguments d.symbol takes given a.context)
    | Option.none => Option.none
  else Option.none

/-- `BaseVerb._resolve_positional` (`verb.py` lines 79-82): zip the effective
positional order with the supplied positional arguments into a dict of
keyword bindings. -/
def BaseVerb.resolve_positional (d : VerbDef) (args : List Noun) : List (String × Noun) :=
  pyDict ((VerbDef.effPos d).zip args)

/-- The keyword-scanning loop of `BaseVerb._check_kwargs` (`verb.py` lines
60-68): walk the keywords in iteration order, removing each from the required
or optional list, raising `ExtraKeywordError` on an unknown keyword, and
remembering the last key scanned.  On success it returns the leftover
required list and the last key. -/
def scanLoop (symbol : String) :
    List (String × Noun) → List String → List String → Option String →
    Except VerbError (List String × Option String)
  | [], required, _opt, lastKey => .ok (required, lastKey)
  | (key, v) :: rest, required, opt, _lastKey =>
    if memStr required key then
      scanLoop symbol rest (eraseFirst required key) opt (some key)
    else if memStr opt key then
      scanLoop symbol rest required (eraseFirst opt key) (some key)
    else
      .error (VerbError.extraKeyword symbol key v.context)

/-- Context attribution for `MissingKeywordError` (`verb.py` lines 70-74):
`kwargs[last_key].context` when `last_key` is truthy (a non-empty string),
else the instance's own construction context. -/
def missingCtx (kw : List (String × Noun)) (lastKey : Option String)
    (selfCtx : Option Ctx) : Option Ctx :=
  match lastKey with
  | some k => if k = "" then selfCtx else (alookup kw k).map Noun.context
  | Option.none => selfCtx

/-- The strictness flag consumed by `_check_kwargs`: the Python signature is
`_check_kwargs(self, strict=False, **kwargs)`, so a supplied binding named
`strict` is captured by the named parameter and its truthiness becomes the
flag; absent, the default is `False`. -/
def strictOf (kwargs : List (String × Noun)) : Bool :=
  match alookup kwargs "strict" with
  | some n => n.truthy
  | Option.none => false

/-- The required list built by `_check_kwargs` (`verb.py` lines 50-55): a copy
of `_hard_required`, extended by `_soft_required` when strict. -/
def requiredInit (d : VerbDef) (strict : Bool) : List String :=
  if strict then d.hard_required ++ d.soft_required else d.hard_required

/-- The optional list built by `_check_kwargs` (`verb.py` lines 51-57): a copy
of `_optional`, extended by `_soft_required` when not strict. -/
def optionalInit (d : VerbDef) (strict : Bool) : List String :=
  if strict then d.optional else d.optional ++ d.soft_required

/-- `BaseVerb._check_kwargs` (`verb.py` lines 48-77): the `strict` binding is
captured by the named parameter and excluded from the scanned keyword dict;
the scan classifies each keyword; leftover required names raise
`MissingKeywordError` naming the first of them. -/
def BaseVerb.check_kwargs (d : VerbDef) (selfCtx : Option Ctx)
    (kwargs : List (String × Noun)) : Except VerbError Unit :=
  let strict := strictOf kwargs
  let kw := removeKey kwargs "strict"
  match scanLoop d.symbol kw (requiredInit d strict) (optionalInit d strict) Option.none with
  | .error e => .error e
  | .ok (required', lastKey) =>
    match required' with
    | [] => .ok ()
    | r :: _ => .error (VerbError.missingKeyword d.symbol r (missingCtx kw lastKey selfCtx))

/-- The stored keyword dict of `BaseVerb.__init__` (`verb.py` line 37):
`kwargs.update(self._resolve_positional(*args))`, i.e. the positional
resolutions merged ON TOP of the explicitly supplied keywords. -/
def BaseVerb.merged (d : VerbDef) (args : List Noun)
    (kwargs : List (String × Noun)) : List (String × Noun) :=
  dictUpdate kwargs (BaseVerb.resolve_positional d args)

/-- `BaseVerb.__init__` (`verb.py` lines 32-39): arity check, positional
resolution merged on top of the supplied keywords with `kwargs.update(...)`,
keyword classification, then the merged dict is stored as `self._kwargs`
(returned here on success). -/
def BaseVerb.init (d : VerbDef) (args : List Noun) (ctx : Option Ctx)
    (kwargs : List (String × Noun)) : Except VerbError (List (String × Noun)) :=
  match BaseVerb.check_args d args with
  | some e => .error e
  | Option.none =>
    match BaseVerb.check_kwargs d ctx (BaseVerb.merged d args kwargs) with
    | .error e => .error e
    | .ok _ => .ok (BaseVerb.merged d args kwargs)

/-- `BaseVerb.has` (`verb.py` lines 89-91): the bound names, in storage
order. -/
def BaseVerb.has (stored : List (String × Noun)) : List String :=
  stored.map Prod.fst

/-- `BaseVerb.needs` (`verb.py` lines 93-98): `chain(_hard_required,
_soft_required)` as a list. -/
def BaseVerb.needs (d : VerbDef) : List String :=
  d.hard_required ++ d.soft_required

/-- `BaseVerb.wants` (`verb.py` lines 100-105) reads `self._needs`, an
attribute that no class in the file ever defines (the property is named
`needs`), so every access raises `AttributeError`. -/
def BaseVerb.wants (_d : VerbDef) : Except String (List String) :=
  .error "AttributeError: _needs"

example :
    BaseVerb.init ⟨"ls", [], ["bucket"], [], Option.none⟩ [⟨1, true⟩] Option.none
      [("bucket", ⟨2, true⟩)] = .ok [("bucket", ⟨1, true⟩)] := rfl

example :
    BaseVerb.init ⟨"ls", ["a"], [], [], Option.none⟩ [] Option.none
      [("zzz", ⟨3, true⟩)] = .error (VerbError.extraKeyword "ls" "zzz" 3) := rfl

example :
    BaseVerb.init ⟨"ls", ["a"], [], [], Option.none⟩ [] (some 7)
      [] = .error (VerbError.missingKeyword "ls" "a" (some 7)) := rfl

example :
    BaseVerb.init ⟨"ls", [], ["bucket"], [], Option.none⟩ [] Option.none
      [("strict", ⟨9, true⟩)] =
      .error (VerbError.missingKeyword "ls" "bucket" Option.none) := rfl

/-- A raw record produced by a backend page: a mapping from field names to
values. -/
abbrev Record := List (String × Val)

/-- One page of a paginated backend response: a mapping that may contain
record-bearing keys (`Buckets`, `Contents`, `Versions`, `DeleteMarkers`). -/
abbrev Page := List (String × List Record)

/-- Keyword bindings as seen by the listing actions. -/
abbrev Kwargs := List (String × Val)

/-- Python `kwargs.get(k)` with default `None`. -/
def pyGet (kw : Kwargs) (k : String) : Val :=
  (alookup kw k).getD Val.none

/-- The backend calls a listing invocation can issue. -/
inductive S3Call where
  | listBuckets
  | listObjects (bucket : Val)
  | listVersions (bucket : Val)
  | getBucketReplication (bucket : Val)
deriving DecidableEq, Repr

/-- The backend, as an external collaborator: the pages each call returns and
the per-bucket replication configuration.  Modelled from the spec: the
`with_client` pagination adapter (`src/sasquatch/s3/client.py`, not under
`src/`) "normalizes single-response and multi-page backend calls into one
lazy sequence" of page mappings, so each backend call is modelled as
returning its page list directly. -/
structure S3 where
  bucketPages : List Page
  objectPages : Val → List Page
  versionPages : Val → List Page
  replication : Val → Option Record

/-- `s3api.ls` (`s3/api.py` lines 4-12): with a `None` bucket issue
`list_buckets()` with no argument, otherwise `list_objects(Bucket=bucket)`.
Returns the call issued together with the resulting page sequence. -/
def s3api.ls (s : S3) (bucket : Val) : List S3Call × List Page :=
  match bucket with
  | Val.none => ([S3Call.listBuckets], s.bucketPages)
  | Val.str b => ([S3Call.listObjects (Val.str b)], s.objectPages (Val.str b))

/-- Modelled from the spec: `s3api.lv` is called by `ListVersionAction` but is
absent from `src/sasquatch/s3/api.py`; per the spec it is the version-listing
backend call for a bucket, returning pages of `Versions`/`DeleteMarkers`. -/
def s3api.lv (s : S3) (bucket : Val) : List S3Call × List Page :=
  ([S3Call.listVersions bucket], s.versionPages bucket)

/-- Modelled from the spec: `s3api.get_bucket_replication` is called by
`ListReplicationAction` but is absent from `src/sasquatch/s3/api.py`; per the
spec it is the per-bucket "side query for replication configuration",
returning the configuration or `None`. -/
def s3api.get_bucket_replication (s : S3) (bucket : Val) : Option Record :=
  s.replication bucket

/-- Modelled from the spec: `Action._extract_from_noun` lives in
`src/sasquatch/action/base.py`, which is not under `src/`.  The spec says
soft-required parameters "may be supplied either directly or derived from an
enclosing noun/context"; with no enclosing noun the extraction returns the
bindings unchanged. -/
def extract_from_noun (kw : Kwargs) : Kwargs := kw

/-- The semantic kind tag of a result record (`pipe.py` result classes:
`BucketResult`, `ObjectResult`, `ObjectVersionResult`). -/
inductive ResultKind where
  | bucket
  | object
  | objectVersion
deriving DecidableEq, Repr

/-- A wrapped result record.  Modelled from the spec for the missing
`src/sasquatch/pipe.py`: `wrap(kind, rawRecord, context)` pairs the raw
mapping with the semantic kind and the invocation context. -/
structure SResult where
  kind : ResultKind
  record : Record
  ctx : Option Ctx
deriving DecidableEq, Repr

/-- Drain a direct-indexed record-bearing key across pages: `for page in
pages: for rec in page[k]: yield rec`.  A page without the key raises
`KeyError` (`listing.py` lines 12-14 and 19-21 index `page['Buckets']` and
`page['Contents']` without a membership guard). -/
def drainKey : List Page → String → Except String (List Record)
  | [], _ => .ok []
  | p :: ps, k =>
    match alookup p k with
    | Option.none => .error k
    | some recs => (drainKey ps k).map (fun rest => recs ++ rest)

/-- `ListAction.__list_buckets` (`listing.py` lines 10-14): extract from the
noun, call `s3api.ls`, and yield a copy of each entry of every page's
`Buckets` key. -/
def ListAction.list_buckets (s : S3) (kw : Kwargs) : List S3Call × Except String (List Record) :=
  let kw := extract_from_noun kw
  let (calls, pages) := s3api.ls s (pyGet kw "bucket")
  (calls, drainKey pages "Buckets")

/-- `ListAction._list_objects` (`listing.py` lines 16-21): extract from the
noun, call `s3api.ls` with the bound bucket, and yield each entry of every
page's `Contents` key as `dict(_bucket=bucket, **obj)`. -/
def ListAction.list_objects (s : S3) (kw : Kwargs) : List S3Call × Except String (List Record) :=
  let kw := extract_from_noun kw
  let bucket := pyGet kw "bucket"
  let (calls, pages) := s3api.ls s bucket
  (calls, (drainKey pages "Contents").map (List.map (fun obj => ("_bucket", bucket) :: obj)))

/-- `ListAction._process` (`listing.py` lines 23-31): when `bucket` is bound
and non-null dispatch to the object lister and wrap as `ObjectResult`,
otherwise dispatch to the bucket lister and wrap as `BucketResult`; both
wrappings attach the action's context. -/
def ListAction.process (s : S3) (ctx : Option Ctx) (kw : Kwargs) :
    List S3Call × Except String (List SResult) :=
  if pyGet kw "bucket" ≠ Val.none then
    let (calls, res) := ListAction.list_objects s kw
    (calls, res.map (List.map (fun r => ⟨ResultKind.object, r, ctx⟩)))
  else
    let (calls, res) := ListAction.list_buckets s kw
    (calls, res.map (List.map (fun r => ⟨ResultKind.bucket, r, ctx⟩)))

/-- The record-bearing entries of one version page (`listing.py` lines 42-44):
`page['Versions'] if 'Versions' in page else []` followed by the same for
`DeleteMarkers`. -/
def ListVersionAction.pageItems (p : Page) : List Record :=
  (match alookup p "Versions" with
   | some v => v
   | Option.none => []) ++
  (match alookup p "DeleteMarkers" with
   | some m => m
   | Option.none => [])

/-- The inner loop of `ListVersionAction._process` (`listing.py` lines 42-46):
set `version['_bucket'] = bucket` on each record and wrap it as an
`ObjectVersionResult` with the action's context. -/
def ListVersionAction.drainPage (b : Val) (ctx : Option Ctx) : List Record → List SResult
  | [] => []
  | version :: rest =>
    ⟨ResultKind.objectVersion, dictSet version "_bucket" b, ctx⟩ ::
      ListVersionAction.drainPage b ctx rest

/-- The page loop of `ListVersionAction._process`. -/
def ListVersionAction.drain (b : Val) (ctx : Option Ctx) : List Page → List SResult
  | [] => []
  | p :: ps =>
    ListVersionAction.drainPage b ctx (ListVersionAction.pageItems p) ++
      ListVersionAction.drain b ctx ps

/-- `ListVersionAction._process` (`listing.py` lines 38-46): extract from the
noun, call `s3api.lv`, and for each page yield its `Versions` entries then its
`DeleteMarkers` entries (each key treated as empty when absent), tagging each
record with the owning bucket. -/
def ListVersionAction.process (s : S3) (ctx : Option Ctx) (kw : Kwargs) :
    List S3Call × Except String (List SResult) :=
  let kw := extract_from_noun kw
  let bucket := pyGet kw "bucket"
  let (calls, pages) := s3api.lv s bucket
  (calls, .ok (ListVersionAction.drain bucket ctx pages))

/-- The per-bucket loop of `ListReplicationAction.__list_buckets`
(`listing.py` lines 55-58): for each listed bucket record, index
`bucket['Name']` (a `KeyError` when absent), issue the replication side
query, and yield the record only when the configuration `is not None`. -/
def ListReplicationAction.bucketsOf (s : S3) :
    List Record → List S3Call × Except String (List Record)
  | [] => ([], .ok [])
  | bucket :: rest =>
    match alookup bucket "Name" with
    | Option.none => ([], .error "Name")
    | some nm =>
      match s3api.get_bucket_replication s nm with
      | some _ =>
        (S3Call.getBucketReplication nm :: (ListReplicationAction.bucketsOf s rest).1,
          (ListReplicationAction.bucketsOf s rest).2.map (fun l => bucket :: l))
      | Option.none =>
        (S3Call.getBucketReplication nm :: (ListReplicationAction.bucketsOf s rest).1,
          (ListReplicationAction.bucketsOf s rest).2)

/-- The page loop of `ListReplicationAction.__list_buckets` (`listing.py`
lines 52-58), indexing each page's `Buckets` key directly. -/
def ListReplicationAction.drainBuckets (s : S3) :
    List Page → List S3Call × Except String (List Record)
  | [] => ([], .ok [])
  | p :: ps =>
    match alookup p "Buckets" with
    | Option.none => ([], .error "Buckets")
    | some recs =>
      match (ListReplicationAction.bucketsOf s recs).2 with
      | .error e => ((ListReplicationAction.bucketsOf s recs).1, .error e)
      | .ok l1 =>
        ((ListReplicationAction.bucketsOf s recs).1 ++
            (ListReplicationAction.drainBuckets s ps).1,
          (ListReplicationAction.drainBuckets s ps).2.map (fun l2 => l1 ++ l2))

/-- `ListReplicationAction.__list_buckets` (`listing.py` lines 52-58): extract
from the noun, call `s3api.ls`, and yield each listed bucket whose
replication side query returns a non-null configuration. -/
def ListReplicationAction.list_buckets (s : S3) (kw : Kwargs) :
    List S3Call × Except String (List Record) :=
  let kw := extract_from_noun kw
  let (calls, pages) := s3api.ls s (pyGet kw "bucket")
  let (calls2, res) := ListReplicationAction.drainBuckets s pages
  (calls ++ calls2, res)

/-- Python truthiness of a replication-configuration query result: `None` is
falsy, a mapping is truthy exactly when non-empty (`listing.py` line 62 uses
`if s3api.get_bucket_replication(...)`, not an `is not None` test). -/
def pyTruthyRepl : Option Record → Bool
  | Option.none => false
  | some r => !r.isEmpty

/-- `ListReplicationAction.__list_objects` (`listing.py` lines 60-66): issue
the replication side query for the bound bucket first; only when its result
is truthy call `s3api.ls` on the bucket and yield each `Contents` entry as
`dict(_bucket=bucket, _key=obj.get('Name'), **obj)`; otherwise yield
nothing. -/
def ListReplicationAction.list_objects (s : S3) (kw : Kwargs) :
    List S3Call × Except String (List Record) :=
  let bucket := pyGet kw "bucket"
  if pyTruthyRepl (s3api.get_bucket_replication s bucket) then
    let (calls, pages) := s3api.ls s bucket
    (S3Call.getBucketReplication bucket :: calls,
      (drainKey pages "Contents").map (List.map (fun obj =>
        ("_bucket", bucket) :: ("_key", pyGet obj "Name") :: obj)))
  else
    ([S3Call.getBucketReplication bucket], .ok [])

/-- `ListReplicationAction._process` (`listing.py` lines 69-78): extract from
the noun first; when `bucket` is bound and non-null dispatch to the
replication-aware object lister and wrap as `ObjectResult`, otherwise dispatch
to the bucket lister and wrap as `BucketResult`; neither wrapping passes a
context.  Modelled from the spec in one respect: line 73 reads
`self._list_objects`, a name resolved through the missing `Action` base class
(`src/sasquatch/action/base.py`), while the lister of lines 60-66 is the
name-mangled `__list_objects`; the spec describes the replication-gated
lister as the operative object-scoped behaviour, so dispatch is modelled to
it. -/
def ListReplicationAction.process (s : S3) (kw : Kwargs) :
    List S3Call × Except String (List SResult) :=
  let kw := extract_from_noun kw
  if pyGet kw "bucket" ≠ Val.none then
    let (calls, res) := ListReplicationAction.list_objects s kw
    (calls, res.map (List.map (fun r => ⟨ResultKind.object, r, Option.none⟩)))
  else
    let (calls, res) := ListReplicationAction.list_buckets s kw
    (calls, res.map (List.map (fun r => ⟨ResultKind.bucket, r, Option.none⟩)))

/-- Whether a listed bucket record's replication side query returns a
non-null configuration (the yield condition of `listing.py` line 57). -/
def hasRepl (s : S3) (rec : Record) : Bool :=
  match alookup rec "Name" with
  | some nm => (s3api.get_bucket_replication s nm).isSome
  | Option.none => false

lemma memStr_iff_mem (l : List String) (k : String) : memStr l k = true ↔ k ∈ l := by
  induction l with
  | nil => simp [memStr]
  | cons x xs ih =>
    by_cases h : x = k
    · subst h
      simp [memStr]
    · simp only [memStr, List.mem_cons, Bool.or_eq_true, decide_eq_true_eq, ih]
      constructor
      · rintro (h' | h')
        · exact absurd h' h
        · exact Or.inr h'
      · rintro (h' | h')
        · exact absurd h'.symm h
        · exact Or.inr h'

lemma memStr_append (l1 l2 : List String) (k : String) :
    memStr (l1 ++ l2) k = (memStr l1 k || memStr l2 k) := by
  induction l1 with
  | nil => simp [memStr]
  | cons x xs ih => simp [memStr, ih, Bool.or_assoc]

lemma memStr_eraseFirst_false (l : List String) (j k : String) (h : memStr l k = false) :
    memStr (eraseFirst l j) k = false := by
  induction l with
  | nil => simpa [eraseFirst] using h
  | cons x xs ih =>
    simp only [memStr, Bool.or_eq_false_iff] at h
    by_cases hx : x = j
    · simpa [eraseFirst, hx] using h.2
    · simp [eraseFirst, hx, memStr, h.1, ih h.2]

lemma memStr_eraseFirst_of_ne (l : List String) (j k : String) (h : k ≠ j) :
    memStr (eraseFirst l j) k = memStr l k := by
  induction l with
  | nil => simp [eraseFirst]
  | cons x xs ih =>
    by_cases hx : x = j
    · subst hx
      simp [eraseFirst, memStr, fun hk : x = k => h (hk ▸ rfl)]
      intro hk
      exact absurd hk.symm h
    · simp [eraseFirst, hx, memStr, ih]

lemma memStr_eraseFirst_or (l : List String) (j k : String) (h : memStr l k = true) :
    k = j ∨ memStr (eraseFirst l j) k = true := by
  by_cases hk : k = j
  · exact Or.inl hk
  · exact Or.inr ((memStr_eraseFirst_of_ne l j k hk).symm ▸ h)

lemma memStr_of_eraseFirst (l : List String) (j k : String)
    (h : memStr (eraseFirst l j) k = true) : memStr l k = true := by
  induction l with
  | nil => simpa [eraseFirst] using h
  | cons x xs ih =>
    by_cases hx : x = j
    · simp only [eraseFirst, if_pos hx] at h
      simp [memStr, h]
    · simp only [eraseFirst, if_neg hx, memStr, Bool.or_eq_true] at h ⊢
      rcases h with h | h
      · exact Or.inl h
      · exact Or.inr (ih h)

lemma alookup_append {β : Type} (l1 l2 : List (String × β)) (k : String) :
    alookup (l1 ++ l2) k =
      match alookup l1 k with
      | some v => some v
      | Option.none => alookup l2 k := by
  induction l1 with
  | nil => simp [alookup]
  | cons p rest ih =>
    by_cases h : p.1 = k
    · simp [alookup, h]
    · simp [alookup, h, ih]

lemma alookup_eq_none_iff {β : Type} (l : List (String × β)) (k : String) :
    alookup l k = Option.none ↔ k ∉ l.map Prod.fst := by
  induction l with
  | nil => simp [alookup]
  | cons p rest ih =>
    by_cases h : p.1 = k
    · simp [alookup, h]
    · simp only [alookup, if_neg h, List.map_cons, List.mem_cons, ih]
      constructor
      · rintro h' (h'' | h'')
        · exact h (h''.symm)
        · exact h' h''
      · intro h'
        exact fun h'' => h' (Or.inr h'')

lemma memKey_eq_memStr_keys {β : Type} (l : List (String × β)) (k : String) :
    memKey l k = memStr (l.map Prod.fst) k := by
  induction l with
  | nil => simp [memKey, alookup, memStr]
  | cons p rest ih =>
    by_cases h : p.1 = k
    · simp [memKey, alookup, h, memStr]
    · have hm : memStr (List.map Prod.fst (p :: rest)) k = memStr (List.map Prod.fst rest) k := by
        simp [memStr, h]
      rw [hm, ← ih]
      simp [memKey, alookup, if_neg h]

lemma memKey_cons_of {β : Type} (p : String × β) (rest : List (String × β)) (k : String)
    (h : memKey rest k = true) : memKey (p :: rest) k = true := by
  by_cases hp : p.1 = k
  · simp [memKey, alookup, hp]
  · simpa [memKey, alookup, hp] using h

lemma alookup_of_memKey_false {β : Type} (l : List (String × β)) (k : String)
    (h : memKey l k = false) : alookup l k = Option.none := by
  unfold memKey at h
  cases hl : alookup l k with
  | none => rfl
  | some v => rw [hl] at h; simp at h

lemma keys_dictSet_map {β : Type} (d : List (String × β)) (k : String) (v : β) :
    (d.map (fun kv => if kv.1 = k then (k, v) else kv)).map Prod.fst = d.map Prod.fst := by
  induction d with
  | nil => rfl
  | cons p rest ih =>
    by_cases h : p.1 = k
    · simp [h, ih]
    · simp [h, ih]

lemma keys_dictSet_nodup {β : Type} (d : List (String × β)) (k : String) (v : β)
    (h : (d.map Prod.fst).Nodup) : ((dictSet d k v).map Prod.fst).Nodup := by
  unfold dictSet
  by_cases hm : memKey d k
  · rw [if_pos hm, keys_dictSet_map]
    exact h
  · have hk : k ∉ d.map Prod.fst :=
      (alookup_eq_none_iff d k).mp (alookup_of_memKey_false d k (by simpa using hm))
    simp [hm, List.nodup_append, h, hk]

lemma alookup_map_set {β : Type} (d : List (String × β)) (k : String) (v : β)
    (h : memKey d k = true) :
    alookup (d.map (fun kv => if kv.1 = k then (k, v) else kv)) k = some v := by
  induction d with
  | nil => simp [memKey, alookup] at h
  | cons p rest ih =>
    simp only [List.map_cons]
    by_cases hp : p.1 = k
    · rw [if_pos hp]
      simp [alookup]
    · rw [if_neg hp]
      have h' : memKey rest k = true := by simpa [memKey, alookup, hp] using h
      simpa [alookup, hp] using ih h'

lemma alookup_dictSet_self {β : Type} (d : List (String × β)) (k : String) (v : β) :
    alookup (dictSet d k v) k = some v := by
  unfold dictSet
  by_cases hm : memKey d k
  · simpa [hm] using alookup_map_set d k v hm
  · have hn : alookup d k = Option.none := alookup_of_memKey_false d k (by simpa using hm)
    simp [hm, alookup_append, hn, alookup]

lemma alookup_map_set_ne {β : Type} (d : List (String × β)) (k' k : String) (v : β)
    (h : k' ≠ k) :
    alookup (d.map (fun kv => if kv.1 = k' then (k', v) else kv)) k = alookup d k := by
  induction d with
  | nil => rfl
  | cons p rest ih =>
    simp only [List.map_cons]
    by_cases hp : p.1 = k'
    · rw [if_pos hp]
      have hpk : p.1 ≠ k := fun hc => h (hp.symm.trans hc)
      simp [alookup, h, hpk, ih]
    · rw [if_neg hp]
      by_cases hpk : p.1 = k
      · simp [alookup, hpk]
      · simp [alookup, hpk, ih]

lemma alookup_dictSet_ne {β : Type} (d : List (String × β)) (k' k : String) (v : β)
    (h : k' ≠ k) : alookup (dictSet d k' v) k = alookup d k := by
  unfold dictSet
  by_cases hm : memKey d k'
  · rw [if_pos hm]
    exact alookup_map_set_ne d k' k v h
  · rw [if_neg hm, alookup_append]
    cases hl : alookup d k with
    | none => simp [alookup, fun hc : k' = k => h hc]
    | some w => simp

lemma dictUpdate_nil {β : Type} (d : List (String × β)) : dictUpdate d [] = d := rfl

lemma dictUpdate_cons {β : Type} (d : List (String × β)) (p : String × β)
    (rest : List (String × β)) :
    dictUpdate d (p :: rest) = dictUpdate (dictSet d p.1 p.2) rest := rfl

lemma alookup_dictUpdate_none {β : Type} (u : List (String × β)) (k : String) :
    ∀ d : List (String × β), alookup u k = Option.none →
      alookup (dictUpdate d u) k = alookup d k := by
  induction u with
  | nil => intro d _; rfl
  | cons p rest ih =>
    intro d h
    have hp : p.1 ≠ k := by
      intro hc
      simp [alookup, hc] at h
    have h' : alookup rest k = Option.none := by
      simpa [alookup, hp] using h
    rw [dictUpdate_cons, ih _ h', alookup_dictSet_ne d p.1 k p.2 hp]

lemma alookup_dictUpdate_some {β : Type} (u : List (String × β)) (k : String) (v : β) :
    ∀ d : List (String × β), (u.map Prod.fst).Nodup → alookup u k = some v →
      alookup (dictUpdate d u) k = some v := by
  induction u with
  | nil => intro d _ h; simp [alookup] at h
  | cons p rest ih =>
    intro d hnd h
    simp only [List.map_cons, List.nodup_cons] at hnd
    by_cases hp : p.1 = k
    · subst hp
      have hv : p.2 = v := by simpa [alookup] using h
      have hrest : alookup rest p.1 = Option.none := by
        rw [alookup_eq_none_iff]
        exact hnd.1
      rw [dictUpdate_cons, alookup_dictUpdate_none rest p.1 _ hrest,
        alookup_dictSet_self, hv]
    · have h' : alookup rest k = some v := by simpa [alookup, hp] using h
      rw [dictUpdate_cons]
      exact ih _ hnd.2 h'

lemma keys_dictUpdate_nodup {β : Type} (u : List (String × β)) :
    ∀ d : List (String × β), (d.map Prod.fst).Nodup →
      ((dictUpdate d u).map Prod.fst).Nodup := by
  induction u with
  | nil => intro d h; exact h
  | cons p rest ih =>
    intro d h
    rw [dictUpdate_cons]
    exact ih _ (keys_dictSet_nodup d p.1 p.2 h)

lemma keys_pyDict_nodup {β : Type} (l : List (String × β)) :
    ((pyDict l).map Prod.fst).Nodup := by
  unfold pyDict
  exact keys_dictUpdate_nodup l [] (by simp)

lemma memStr_keys_of_alookup {β : Type} (l : List (String × β)) (k : String) (v : β)
    (h : alookup l k = some v) : memStr (l.map Prod.fst) k = true := by
  rw [← memKey_eq_memStr_keys]
  unfold memKey
  rw [h]
  rfl

lemma memKey_removeKey_self {β : Type} (l : List (String × β)) (k : String) :
    memKey (removeKey l k) k = false := by
  induction l with
  | nil => simp [removeKey, memKey, alookup]
  | cons p rest ih =>
    by_cases hp : p.1 = k
    · simpa [removeKey, hp] using ih
    · simpa [removeKey, hp, memKey, alookup] using ih

lemma memKey_removeKey_le {β : Type} (l : List (String × β)) (j k : String)
    (h : memKey (removeKey l j) k = true) : memKey l k = true := by
  induction l with
  | nil => simpa [removeKey] using h
  | cons p rest ih =>
    by_cases hp : p.1 = j
    · simp only [removeKey, if_pos hp] at h
      exact memKey_cons_of p rest k (ih h)
    · by_cases hpk : p.1 = k
      · simp [memKey, alookup, hpk]
      · simp only [removeKey, if_neg hp] at h
        have h' : memKey (removeKey rest j) k = true := by
          simpa [memKey, alookup, hpk] using h
        exact memKey_cons_of p rest k (ih h')

lemma scanLoop_extra (sym : String) (k : String) (n : Noun) (post : List (String × Noun)) :
    ∀ (pre : List (String × Noun)) (required opt : List String) (lk : Option String),
      (pre.map Prod.fst).Nodup →
      (∀ q ∈ pre, memStr (required ++ opt) q.1 = true) →
      memStr (required ++ opt) k = false →
      scanLoop sym (pre ++ (k, n) :: post) required opt lk =
        .error (VerbError.extraKeyword sym k n.context) := by
  intro pre
  induction pre with
  | nil =>
    intro required opt lk _ _ hk
    rw [memStr_append] at hk
    simp only [Bool.or_eq_false_iff] at hk
    simp [scanLoop, hk.1, hk.2]
  | cons q pre' ih =>
    intro required opt lk hnd hpre hk
    obtain ⟨q1, q2⟩ := q
    simp only [List.map_cons, List.nodup_cons] at hnd
    have hq : memStr (required ++ opt) q1 = true := hpre (q1, q2) (List.mem_cons_self _ _)
    rw [memStr_append] at hq
    have hpre' : ∀ q' ∈ pre', q'.1 ≠ q1 := by
      intro q' hq' hc
      exact hnd.1 (hc ▸ List.mem_map_of_mem Prod.fst hq')
    rw [memStr_append] at hk
    simp only [Bool.or_eq_false_iff] at hk
    by_cases hr : memStr required q1 = true
    · simp only [List.cons_append, scanLoop, hr, if_true]
      refine ih (eraseFirst required q1) opt (some q1) hnd.2 ?_ ?_
      · intro q' hq'
        have h' := hpre q' (List.mem_cons_of_mem _ hq')
        rw [memStr_append] at h'
        rw [memStr_append, memStr_eraseFirst_of_ne required q1 q'.1 (hpre' q' hq')]
        exact h'
      · rw [memStr_append, hk.2, memStr_eraseFirst_false required q1 k hk.1]
        rfl
    · have ho : memStr opt q1 = true := by
        rcases Bool.or_eq_true_iff.mp hq with h' | h'
        · exact absurd h' hr
        · exact h'
      simp only [List.cons_append, scanLoop, hr, ho, if_true, if_false,
        Bool.false_eq_true]
      refine ih required (eraseFirst opt q1) (some q1) hnd.2 ?_ ?_
      · intro q' hq'
        have h' := hpre q' (List.mem_cons_of_mem _ hq')
        rw [memStr_append] at h'
        rw [memStr_append, memStr_eraseFirst_of_ne opt q1 q'.1 (hpre' q' hq')]
        exact h'
      · rw [memStr_append, hk.1, memStr_eraseFirst_false opt q1 k hk.2]
        rfl

lemma scanLoop_error_key (sym : String) :
    ∀ (kwlist : List (String × Noun)) (required opt : List String) (lk : Option String)
      (sym' k : String) (c : Ctx),
      scanLoop sym kwlist required opt lk = .error (VerbError.extraKeyword sym' k c) →
      memKey kwlist k = true := by
  intro kwlist
  induction kwlist with
  | nil =>
    intro _ _ _ _ _ _ h
    simp [scanLoop] at h
  | cons q rest ih =>
    intro required opt lk sym' k c h
    obtain ⟨q1, q2⟩ := q
    by_cases hr : memStr required q1 = true
    · simp only [scanLoop, hr, if_true] at h
      exact memKey_cons_of _ _ _ (ih _ _ _ _ _ _ h)
    · by_cases ho : memStr opt q1 = true
      · simp only [scanLoop, hr, ho, if_true, if_false, Bool.false_eq_true] at h
        exact memKey_cons_of _ _ _ (ih _ _ _ _ _ _ h)
      · simp only [scanLoop, hr, ho, if_false, Bool.false_eq_true] at h
        have hk : q1 = k := by
          simpa using congrArg (fun e =>
            match e with
            | Except.error (VerbError.extraKeyword _ kw _) => kw
            | _ => "") h
        simp [memKey, alookup, hk]

lemma scanLoop_ok_consumed (sym : String) :
    ∀ (kwlist : List (String × Noun)) (required opt : List String) (lk : Option String)
      (req' : List String) (lk' : Option String),
      scanLoop sym kwlist required opt lk = .ok (req', lk') →
      ∀ x, memStr required x = true → memStr req' x = true ∨ memKey kwlist x = true := by
  intro kwlist
  induction kwlist with
  | nil =>
    intro required opt lk req' lk' h x hx
    simp only [scanLoop, Except.ok.injEq, Prod.mk.injEq] at h
    exact Or.inl (h.1 ▸ hx)
  | cons q rest ih =>
    intro required opt lk req' lk' h x hx
    obtain ⟨q1, q2⟩ := q
    by_cases hr : memStr required q1 = true
    · simp only [scanLoop, hr, if_true] at h
      rcases memStr_eraseFirst_or required q1 x hx with hxq | hx'
      · exact Or.inr (by simp [memKey, alookup, hxq.symm])
      · rcases ih _ _ _ _ _ h x hx' with h' | h'
        · exact Or.inl h'
        · exact Or.inr (memKey_cons_of _ _ _ h')
    · by_cases ho : memStr opt q1 = true
      · simp only [scanLoop, hr, ho, if_true, if_false, Bool.false_eq_true] at h
        rcases ih _ _ _ _ _ h x hx with h' | h'
        · exact Or.inl h'
        · exact Or.inr (memKey_cons_of _ _ _ h')
      · simp [scanLoop, hr, ho] at h

lemma scanLoop_ok_sublist (sym : String) :
    ∀ (kwlist : List (String × Noun)) (required opt : List String) (lk : Option String)
      (req' : List String) (lk' : Option String),
      scanLoop sym kwlist required opt lk = .ok (req', lk') →
      ∀ x, memStr req' x = true → memStr required x = true := by
  intro kwlist
  induction kwlist with
  | nil =>
    intro required opt lk req' lk' h x hx
    simp only [scanLoop, Except.ok.injEq, Prod.mk.injEq] at h
    exact h.1 ▸ hx
  | cons q rest ih =>
    intro required opt lk req' lk' h x hx
    obtain ⟨q1, q2⟩ := q
    by_cases hr : memStr required q1 = true
    · simp only [scanLoop, hr, if_true] at h
      exact memStr_of_eraseFirst required q1 x (ih _ _ _ _ _ h x hx)
    · by_cases ho : memStr opt q1 = true
      · simp only [scanLoop, hr, ho, if_true, if_false, Bool.false_eq_true] at h
        exact ih _ _ _ _ _ h x hx
      · simp [scanLoop, hr, ho] at h

lemma check_kwargs_eq (d : VerbDef) (selfCtx : Option Ctx)
    (kwargs : List (String × Noun)) :
    BaseVerb.check_kwargs d selfCtx kwargs =
      match scanLoop d.symbol (removeKey kwargs "strict")
          (requiredInit d (strictOf kwargs)) (optionalInit d (strictOf kwargs))
          Option.none with
      | .error e => .error e
      | .ok (required', lastKey) =>
        match required' with
        | [] => .ok ()
        | r :: _ => .error (VerbError.missingKeyword d.symbol r
            (missingCtx (removeKey kwargs "strict") lastKey selfCtx)) := rfl

lemma init_of_le (d : VerbDef) (args : List Noun) (ctx : Option Ctx)
    (kw : List (String × Noun)) (hargs : args.length ≤ (VerbDef.effPos d).length) :
    BaseVerb.init d args ctx kw =
      match BaseVerb.check_kwargs d ctx (BaseVerb.merged d args kw) with
      | .error e => .error e
      | .ok _ => .ok (BaseVerb.merged d args kw) := by
  unfold BaseVerb.init BaseVerb.check_args
  simp [Nat.not_lt.mpr hargs]

lemma init_ok_eq (d : VerbDef) (args : List Noun) (ctx : Option Ctx)
    (kw out : List (String × Noun)) (h : BaseVerb.init d args ctx kw = .ok out) :
    out = BaseVerb.merged d args kw := by
  unfold BaseVerb.init at h
  cases hca : BaseVerb.check_args d args with
  | some e => rw [hca] at h; simp at h
  | none =>
    rw [hca] at h
    cases hck : BaseVerb.check_kwargs d ctx (BaseVerb.merged d args kw) with
    | error e => rw [hck] at h; simp at h
    | ok u => rw [hck] at h; simpa using h.symm

lemma check_args_shape (d : VerbDef) (args : List Noun) (e : VerbError)
    (h : BaseVerb.check_args d args = some e) :
    ∃ t g cx, e = VerbError.tooManyArguments d.symbol t g cx := by
  unfold BaseVerb.check_args at h
  by_cases hlt : (VerbDef.effPos d).length < args.length
  · rw [if_pos hlt] at h
    cases hl : args.getLast? with
    | none => rw [hl] at h; simp at h
    | some a =>
      rw [hl] at h
      simp only [Option.some.injEq] at h
      exact ⟨_, _, _, h.symm⟩
  · rw [if_neg hlt] at h
    simp at h

/-- Claim C1 (corrected), counterexample to the claim as stated: a verb with
soft-required `bucket` constructed with one positional noun (context 1) and an
explicit keyword `bucket` (context 2) stores the POSITIONAL noun, not the
explicit keyword's, because `verb.py` line 37 runs
`kwargs.update(self._resolve_positional(*args))`. -/
theorem C1_counterexample :
    BaseVerb.init ⟨"ls", [], ["bucket"], [], Option.none⟩ [⟨1, true⟩] Option.none
        [("bucket", ⟨2, true⟩)] = .ok [("bucket", ⟨1, true⟩)] ∧
    (⟨1, true⟩ : Noun) ≠ ⟨2, true⟩ := ⟨rfl, by decide⟩

/-- Claim C1 (amended): explicit keywords are collected first and positional
resolutions are merged on top, so for every parameter name bound positionally
the constructed instance's stored binding is the positional value (its
resolution silently overrides any explicit keyword of the same name). -/
theorem C1_positional_overrides_keyword (d : VerbDef) (args : List Noun)
    (ctx : Option Ctx) (kw out : List (String × Noun)) (k : String) (n : Noun)
    (hok : BaseVerb.init d args ctx kw = .ok out)
    (hp : alookup (BaseVerb.resolve_positional d args) k = some n) :
    alookup out k = some n := by
  rw [init_ok_eq d args ctx kw out hok]
  unfold BaseVerb.merged
  refine alookup_dictUpdate_some (BaseVerb.resolve_positional d args) k n kw ?_ hp
  unfold BaseVerb.resolve_positional
  exact keys_pyDict_nodup _

/-- Witness for C1's amended theorem at the counterexample input. -/
theorem C1_witness :
    alookup [("bucket", (⟨1, true⟩ : Noun))] "bucket" = some ⟨1, true⟩ :=
  C1_positional_overrides_keyword ⟨"ls", [], ["bucket"], [], Option.none⟩
    [⟨1, true⟩] Option.none [("bucket", ⟨2, true⟩)] [("bucket", ⟨1, true⟩)]
    "bucket" ⟨1, true⟩ rfl rfl

/-- Claim C4 (code bug): `needs` is the hard-required list followed by the
soft-required list, in declaration order, without deduplication — but every
access to `wants` raises `AttributeError`, because `verb.py` line 103 reads
`self._needs`, an attribute that is never defined anywhere in the class
hierarchy (the property is named `needs`). -/
theorem C4_needs_wants :
    BaseVerb.needs ⟨"x", ["a", "b"], ["b"], ["c"], Option.none⟩ = ["a", "b", "b"] ∧
    BaseVerb.wants ⟨"x", ["a", "b"], ["b"], ["c"], Option.none⟩ =
      .error "AttributeError: _needs" := ⟨rfl, rfl⟩

/-- Claim C3 (corrected), counterexample to the claim as stated: the keyword
`strict` belongs to none of the three parameter lists, yet constructing a verb
with only `strict` supplied succeeds — the binding is captured by the
`strict=False` named parameter of `_check_kwargs` and is never classified. -/
theorem C3_counterexample :
    BaseVerb.init ⟨"nop", [], [], [], Option.none⟩ [] Option.none
        [("strict", ⟨3, true⟩)] = .ok [("strict", ⟨3, true⟩)] ∧
    memStr (VerbDef.hard_required ⟨"nop", [], [], [], Option.none⟩ ++
        VerbDef.soft_required ⟨"nop", [], [], [], Option.none⟩ ++
        VerbDef.optional ⟨"nop", [], [], [], Option.none⟩) "strict" = false :=
  ⟨rfl, rfl⟩

/-- Claim C3 (amended): for every scanned keyword OTHER than the reserved name
`strict` that is outside hard-required ∪ soft-required ∪ optional, construction
raises Extra-Keyword Error eagerly, naming the first such keyword in scan
order and carrying that keyword's context, regardless of the strictness
flag. -/
theorem C3_extra_keyword (d : VerbDef) (args : List Noun) (ctx : Option Ctx)
    (kw pre post : List (String × Noun)) (k : String) (n : Noun)
    (hargs : args.length ≤ (VerbDef.effPos d).length)
    (hsplit : removeKey (BaseVerb.merged d args kw) "strict" = pre ++ (k, n) :: post)
    (hnd : (pre.map Prod.fst).Nodup)
    (hpre : ∀ q ∈ pre,
      memStr (d.hard_required ++ d.soft_required ++ d.optional) q.1 = true)
    (hk : memStr (d.hard_required ++ d.soft_required ++ d.optional) k = false) :
    BaseVerb.init d args ctx kw =
      .error (VerbError.extraKeyword d.symbol k n.context) := by
  rw [init_of_le d args ctx kw hargs, check_kwargs_eq]
  have hmem : ∀ x,
      memStr (requiredInit d (strictOf (BaseVerb.merged d args kw)) ++
        optionalInit d (strictOf (BaseVerb.merged d args kw))) x =
      memStr (d.hard_required ++ d.soft_required ++ d.optional) x := by
    intro x
    cases hs : strictOf (BaseVerb.merged d args kw) with
    | true =>
      simp [requiredInit, optionalInit, memStr_append, Bool.or_assoc]
    | false =>
      simp only [requiredInit, optionalInit, Bool.false_eq_true, if_false,
        memStr_append, Bool.or_assoc, Bool.or_comm, Bool.or_left_comm]
  rw [hsplit, scanLoop_extra d.symbol k n post pre _ _ Option.none hnd
    (fun q hq => by rw [hmem q.1]; exact hpre q hq)
    (by rw [hmem k]; exact hk)]

/-- Witness for C3's amended theorem: an unknown keyword `zzz` after a known
one raises `ExtraKeywordError` naming `zzz` with its context. -/
theorem C3_witness :
    BaseVerb.init ⟨"g", ["a"], [], [], Option.none⟩ [] Option.none
        [("a", ⟨1, false⟩), ("zzz", ⟨2, false⟩)] =
      .error (VerbError.extraKeyword "g" "zzz" 2) :=
  C3_extra_keyword ⟨"g", ["a"], [], [], Option.none⟩ [] Option.none
    [("a", ⟨1, false⟩), ("zzz", ⟨2, false⟩)] [("a", ⟨1, false⟩)] [] "zzz"
    ⟨2, false⟩ (by decide) rfl (by decide) (by decide) (by decide)

/-- Claim C9 (corrected), counterexample to the claim as stated: a verb whose
optional list declares the empty-string name, constructed with that keyword
supplied (context 5) and a missing hard-required `a`, raises
`MissingKeywordError` carrying the INVOCATION's context (7), not the last
scanned keyword's (5): `verb.py` line 71 tests `if last_key:`, and the empty
string is falsy. -/
theorem C9_counterexample :
    BaseVerb.init ⟨"hd", ["a"], [], [""], Option.none⟩ [] (some 7)
        [("", ⟨5, true⟩)] = .error (VerbError.missingKeyword "hd" "a" (some 7)) ∧
    alookup [("", (⟨5, true⟩ : Noun))] "" = some ⟨5, true⟩ ∧
    (some 7 : Option Ctx) ≠ some 5 := ⟨rfl, rfl, by decide⟩

/-- Claim C9 (amended): when the keyword scan completes with required names
left over, construction fails with Missing-Keyword Error naming the first
remaining required parameter (which is a declared `needs` name), with context
taken from the last keyword scanned when one was scanned AND its name is
truthy (non-empty) — an empty-string last keyword falls back to the
invocation's own context, as does an empty scan. -/
theorem C9_missing_keyword (d : VerbDef) (args : List Noun) (ctx : Option Ctx)
    (kw : List (String × Noun)) (r : String) (rs : List String)
    (lk : Option String)
    (hargs : args.length ≤ (VerbDef.effPos d).length)
    (hscan : scanLoop d.symbol (removeKey (BaseVerb.merged d args kw) "strict")
        (requiredInit d (strictOf (BaseVerb.merged d args kw)))
        (optionalInit d (strictOf (BaseVerb.merged d args kw))) Option.none
        = .ok (r :: rs, lk)) :
    BaseVerb.init d args ctx kw = .error (VerbError.missingKeyword d.symbol r
        (missingCtx (removeKey (BaseVerb.merged d args kw) "strict") lk ctx)) ∧
    memStr (BaseVerb.needs d) r = true := by
  constructor
  · rw [init_of_le d args ctx kw hargs, check_kwargs_eq, hscan]
  · have h1 : memStr (r :: rs) r = true := by simp [memStr]
    have h2 := scanLoop_ok_sublist d.symbol _ _ _ _ _ _ hscan r h1
    unfold BaseVerb.needs
    cases hs : strictOf (BaseVerb.merged d args kw) with
    | true =>
      rw [hs] at h2
      simpa [requiredInit] using h2
    | false =>
      rw [hs] at h2
      simp only [requiredInit, Bool.false_eq_true, if_false] at h2
      rw [memStr_append, h2, Bool.true_or]

/-- Witness for C9's amended theorem: omitting hard-required `b` while
supplying `a` raises `MissingKeywordError` naming `b` with the context of the
last scanned keyword `a`. -/
theorem C9_witness :
    BaseVerb.init ⟨"hd", ["a", "b"], [], [], Option.none⟩ [] (some 9)
        [("a", ⟨4, false⟩)] =
      .error (VerbError.missingKeyword "hd" "b" (some 4)) ∧
    memStr (BaseVerb.needs ⟨"hd", ["a", "b"], [], [], Option.none⟩) "b" = true :=
  C9_missing_keyword ⟨"hd", ["a", "b"], [], [], Option.none⟩ [] (some 9)
    [("a", ⟨4, false⟩)] "b" [] (some "a") (by decide) rfl

/-- Claim C10 (confirmed): supplying a keyword literally named `strict` never
raises Extra-Keyword Error — it is consumed by the `strict=False` named
parameter of `_check_kwargs` as the strictness flag (a truthy value enforces
the soft-required names, so on success they are all bound), while the binding
itself stays in the stored keyword dict, so the `has` view reports it. -/
theorem C10_strict_keyword (d : VerbDef) (args : List Noun) (ctx : Option Ctx)
    (kw : List (String × Noun)) :
    (∀ (sym : String) (c : Ctx),
      BaseVerb.init d args ctx kw ≠ .error (VerbError.extraKeyword sym "strict" c)) ∧
    (∀ (out : List (String × Noun)) (n : Noun),
      BaseVerb.init d args ctx kw = .ok out →
      alookup out "strict" = some n →
      memStr (BaseVerb.has out) "strict" = true ∧
      (n.truthy = true → ∀ m, memStr d.soft_required m = true →
        memStr (BaseVerb.has out) m = true)) := by
  constructor
  · intro sym c h
    unfold BaseVerb.init at h
    cases hca : BaseVerb.check_args d args with
    | some e =>
      rw [hca] at h
      obtain ⟨t, g, cx, he⟩ := check_args_shape d args e hca
      simp only [Except.error.injEq] at h
      rw [he] at h
      exact VerbError.noConfusion h
    | none =>
      rw [hca] at h
      cases hck : BaseVerb.check_kwargs d ctx (BaseVerb.merged d args kw) with
      | ok u => rw [hck] at h; simp at h
      | error e =>
        rw [hck] at h
        simp only [Except.error.injEq] at h
        subst h
        rw [check_kwargs_eq] at hck
        cases hsc : scanLoop d.symbol (removeKey (BaseVerb.merged d args kw) "strict")
            (requiredInit d (strictOf (BaseVerb.merged d args kw)))
            (optionalInit d (strictOf (BaseVerb.merged d args kw))) Option.none with
        | error e' =>
          rw [hsc] at hck
          simp only [Except.error.injEq] at hck
          subst hck
          have hkm := scanLoop_error_key d.symbol _ _ _ _ sym "strict" c hsc
          rw [memKey_removeKey_self] at hkm
          exact Bool.false_ne_true hkm
        | ok p =>
          obtain ⟨req', lk⟩ := p
          rw [hsc] at hck
          cases req' with
          | nil => simp at hck
          | cons r rs => simp at hck
  · intro out n hok hst
    have hout := init_ok_eq d args ctx kw out hok
    subst hout
    refine ⟨memStr_keys_of_alookup _ "strict" n hst, ?_⟩
    intro htr m hm
    unfold BaseVerb.init at hok
    cases hca : BaseVerb.check_args d args with
    | some e => rw [hca] at hok; simp at hok
    | none =>
      rw [hca] at hok
      cases hck : BaseVerb.check_kwargs d ctx (BaseVerb.merged d args kw) with
      | error e => rw [hck] at hok; simp at hok
      | ok u =>
        rw [check_kwargs_eq] at hck
        cases hsc : scanLoop d.symbol (removeKey (BaseVerb.merged d args kw) "strict")
            (requiredInit d (strictOf (BaseVerb.merged d args kw)))
            (optionalInit d (strictOf (BaseVerb.merged d args kw))) Option.none with
        | error e' => rw [hsc] at hck; simp at hck
        | ok p =>
          obtain ⟨req', lk⟩ := p
          rw [hsc] at hck
          cases req' with
          | cons r rs => simp at hck
          | nil =>
            have hs : strictOf (BaseVerb.merged d args kw) = true := by
              unfold strictOf
              rw [hst]
              exact htr
            have hreq : memStr
                (requiredInit d (strictOf (BaseVerb.merged d args kw))) m = true := by
              rw [hs]
              simp [requiredInit, memStr_append, hm]
            rcases scanLoop_ok_consumed d.symbol _ _ _ _ _ _ hsc m hreq with h' | h'
            · simp [memStr] at h'
            · have hmk := memKey_removeKey_le _ "strict" m h'
              unfold BaseVerb.has
              rw [← memKey_eq_memStr_keys]
              exact hmk

/-- Witness for C10: a verb with soft-required `bucket` constructed with
`strict` truthy and `bucket` bound succeeds; `has` reports both names. -/
theorem C10_witness :
    memStr (BaseVerb.has [("strict", (⟨5, true⟩ : Noun)), ("bucket", ⟨6, false⟩)])
        "strict" = true ∧
    memStr (BaseVerb.has [("strict", (⟨5, true⟩ : Noun)), ("bucket", ⟨6, false⟩)])
        "bucket" = true := by
  have h := (C10_strict_keyword ⟨"wv", [], ["bucket"], [], Option.none⟩ [] Option.none
      [("strict", ⟨5, true⟩), ("bucket", ⟨6, false⟩)]).2
      [("strict", ⟨5, true⟩), ("bucket", ⟨6, false⟩)] ⟨5, true⟩ rfl rfl
  exact ⟨h.1, h.2 rfl "bucket" (by decide)⟩

lemma ListAction.process_object (s : S3) (ctx : Option Ctx) (kw : Kwargs) (b : String)
    (hb : pyGet kw "bucket" = Val.str b) :
    ListAction.process s ctx kw =
      ([S3Call.listObjects (Val.str b)],
        ((drainKey (s.objectPages (Val.str b)) "Contents").map
          (List.map (fun obj => ("_bucket", Val.str b) :: obj))).map
          (List.map (fun r => ⟨ResultKind.object, r, ctx⟩))) := by
  unfold ListAction.process ListAction.list_objects extract_from_noun s3api.ls
  simp [hb]

lemma ListAction.process_bucket (s : S3) (ctx : Option Ctx) (kw : Kwargs)
    (hb : pyGet kw "bucket" = Val.none) :
    ListAction.process s ctx kw =
      ([S3Call.listBuckets],
        (drainKey s.bucketPages "Buckets").map
          (List.map (fun r => ⟨ResultKind.bucket, r, ctx⟩))) := by
  unfold ListAction.process ListAction.list_buckets extract_from_noun s3api.ls
  simp [hb]

/-- Claim C2 (confirmed): the baseline listing verb's dispatcher is
object-scoped exactly when `bucket` is bound non-null — it then issues one
object-listing call against that bucket and every yielded record is an
object-kind result tagged `_bucket` with the bucket name — and bucket-scoped
when `bucket` is unbound or null, issuing one argument-less bucket-listing
call and yielding bucket-kind results. -/
theorem C2_list_dispatch (s : S3) (ctx : Option Ctx) (kw : Kwargs)
    (out : List SResult) (r : SResult)
    (hout : (ListAction.process s ctx kw).2 = .ok out) (hr : r ∈ out) :
    (∀ b : String, pyGet kw "bucket" = Val.str b →
      (ListAction.process s ctx kw).1 = [S3Call.listObjects (Val.str b)] ∧
      r.kind = ResultKind.object ∧
      alookup r.record "_bucket" = some (Val.str b)) ∧
    (pyGet kw "bucket" = Val.none →
      (ListAction.process s ctx kw).1 = [S3Call.listBuckets] ∧
      r.kind = ResultKind.bucket) := by
  constructor
  · intro b hb
    rw [ListAction.process_object s ctx kw b hb] at hout ⊢
    refine ⟨rfl, ?_⟩
    cases hd : drainKey (s.objectPages (Val.str b)) "Contents" with
    | error e => rw [hd] at hout; simp [Except.map] at hout
    | ok recs =>
      rw [hd] at hout
      simp only [Except.map, Except.ok.injEq] at hout
      rw [← hout] at hr
      simp only [List.map_map, List.mem_map, Function.comp] at hr
      obtain ⟨obj, _, hobj⟩ := hr
      rw [← hobj]
      exact ⟨rfl, by simp [alookup]⟩
  · intro hb
    rw [ListAction.process_bucket s ctx kw hb] at hout ⊢
    refine ⟨rfl, ?_⟩
    cases hd : drainKey s.bucketPages "Buckets" with
    | error e => rw [hd] at hout; simp [Except.map] at hout
    | ok recs =>
      rw [hd] at hout
      simp only [Except.map, Except.ok.injEq] at hout
      rw [← hout] at hr
      simp only [List.mem_map] at hr
      obtain ⟨obj, _, hobj⟩ := hr
      rw [← hobj]

/-- Witness for C2 at the spec's scenario: `bucket='photos'` yields
object-kind records tagged `_bucket='photos'` from one object-listing
call. -/
theorem C2_witness :
    (ListAction.process
        ⟨[], fun _ => [[("Contents", [[("Key", Val.str "k1")]])]], fun _ => [],
          fun _ => Option.none⟩
        (some 1) [("bucket", Val.str "photos")]).1 =
      [S3Call.listObjects (Val.str "photos")] ∧
    (⟨ResultKind.object, [("_bucket", Val.str "photos"), ("Key", Val.str "k1")],
        some 1⟩ : SResult).kind = ResultKind.object ∧
    alookup (⟨ResultKind.object,
        [("_bucket", Val.str "photos"), ("Key", Val.str "k1")],
        some 1⟩ : SResult).record "_bucket" = some (Val.str "photos") :=
  (C2_list_dispatch
      ⟨[], fun _ => [[("Contents", [[("Key", Val.str "k1")]])]], fun _ => [],
        fun _ => Option.none⟩
      (some 1) [("bucket", Val.str "photos")]
      [⟨ResultKind.object, [("_bucket", Val.str "photos"), ("Key", Val.str "k1")],
        some 1⟩]
      ⟨ResultKind.object, [("_bucket", Val.str "photos"), ("Key", Val.str "k1")],
        some 1⟩
      rfl (List.mem_singleton.mpr rfl)).1 "photos" rfl

lemma drainKey_error_val (k : String) :
    ∀ (pages : List Page) (e : String), drainKey pages k = .error e → e = k := by
  intro pages
  induction pages with
  | nil => intro e h; simp [drainKey] at h
  | cons p ps ih =>
    intro e h
    unfold drainKey at h
    cases hl : alookup p k with
    | none =>
      rw [hl] at h
      simp only [Except.error.injEq] at h
      exact h.symm
    | some recs =>
      rw [hl] at h
      cases hd : drainKey ps k with
      | error e' =>
        rw [hd] at h
        simp only [Except.map, Except.error.injEq] at h
        exact h ▸ ih e' hd
      | ok l => rw [hd] at h; simp [Except.map] at h

/-- Claim C5 (corrected), counterexample to the claim as stated: a
bucket-listing page that lacks the record-bearing key `Buckets` makes the
baseline listing operation fail with a key error (`listing.py` line 13
indexes `page['Buckets']` with no membership guard), rather than being
treated as an empty sequence. -/
theorem C5_counterexample :
    alookup ([] : Page) "Buckets" = Option.none ∧
    (ListAction.process ⟨[[]], fun _ => [], fun _ => [], fun _ => Option.none⟩
        Option.none []).2 = .error "Buckets" := ⟨rfl, rfl⟩

/-- Claim C5 (amended): only the version-listing action treats absent
record-bearing keys (`Versions`, `DeleteMarkers`) as empty sequences and
cannot fail; the direct-indexing drains used for `Buckets` and `Contents`
fail with a key error exactly when some page lacks the key. -/
theorem C5_absent_keys (pages : List Page) (k : String) (s : S3)
    (ctx : Option Ctx) (kw : Kwargs) (p : Page) :
    (drainKey pages k = .error k ↔ ∃ q ∈ pages, alookup q k = Option.none) ∧
    ((ListVersionAction.process s ctx kw).2 =
      .ok (ListVersionAction.drain (pyGet kw "bucket") ctx
        (s.versionPages (pyGet kw "bucket")))) ∧
    (alookup p "Versions" = Option.none → alookup p "DeleteMarkers" = Option.none →
      ListVersionAction.pageItems p = []) := by
  refine ⟨?_, rfl, ?_⟩
  · induction pages with
    | nil => simp [drainKey]
    | cons q ps ih =>
      cases hl : alookup q k with
      | none =>
        simp only [drainKey, hl]
        exact ⟨fun _ => ⟨q, List.mem_cons_self _ _, hl⟩, fun _ => trivial⟩
      | some recs =>
        simp only [drainKey, hl]
        constructor
        · intro h
          cases hd : drainKey ps k with
          | error e =>
            have he : e = k := drainKey_error_val k ps e hd
            subst he
            obtain ⟨q', hq', hq'none⟩ := ih.mp hd
            exact ⟨q', List.mem_cons_of_mem _ hq', hq'none⟩
          | ok l => rw [hd] at h; simp [Except.map] at h
        · rintro ⟨q', hq', hq'none⟩
          rcases List.mem_cons.mp hq' with hq'' | hq''
          · rw [hq''] at hq'none
            rw [hq'none] at hl
            exact Option.noConfusion hl
          · rw [ih.mpr ⟨q', hq'', hq'none⟩]
            rfl
  · intro h1 h2
    unfold ListVersionAction.pageItems
    rw [h1, h2]
    rfl

/-- Witness for C5's amended theorem: a page list whose second page lacks
`Buckets` makes the drain fail; a version page with neither key contributes
nothing. -/
theorem C5_witness :
    drainKey [[("Buckets", [])], []] "Buckets" = .error "Buckets" ∧
    ListVersionAction.pageItems [("Other", [])] = [] := by
  have h := C5_absent_keys [[("Buckets", [])], []] "Buckets"
    ⟨[], fun _ => [], fun _ => [], fun _ => Option.none⟩ Option.none []
    [("Other", [])]
  exact ⟨h.1.mpr ⟨[], by simp, rfl⟩, h.2.2 rfl rfl⟩

/-- Claim C6 (confirmed against the spec-modelled dispatch): for an
object-scoped replication listing, the replication side query is the first
backend call issued, and when the bucket has no replication configuration the
output is empty and no object-listing call is issued at all. -/
theorem C6_replication_gate (s : S3) (kw : Kwargs) (b : String)
    (hb : pyGet kw "bucket" = Val.str b) :
    (ListReplicationAction.process s kw).1.head? =
      some (S3Call.getBucketReplication (Val.str b)) ∧
    (s.replication (Val.str b) = Option.none →
      (ListReplicationAction.process s kw).2 = .ok [] ∧
      (ListReplicationAction.process s kw).1 =
        [S3Call.getBucketReplication (Val.str b)]) := by
  by_cases ht : pyTruthyRepl (s3api.get_bucket_replication s (Val.str b)) = true
  · constructor
    · unfold ListReplicationAction.process ListReplicationAction.list_objects
        extract_from_noun s3api.ls
      simp [hb, ht]
    · intro hn
      rw [show s3api.get_bucket_replication s (Val.str b) =
        s.replication (Val.str b) from rfl, hn] at ht
      simp [pyTruthyRepl] at ht
  · have ht' : pyTruthyRepl (s3api.get_bucket_replication s (Val.str b)) = false :=
      Bool.eq_false_iff.mpr ht
    refine ⟨?_, fun _ => ⟨?_, ?_⟩⟩ <;>
    · unfold ListReplicationAction.process ListReplicationAction.list_objects
        extract_from_noun s3api.ls
      simp [hb, ht', Except.map]

/-- Witness for C6: a bucket with no replication configuration yields an empty
sequence with only the side query issued. -/
theorem C6_witness :
    (ListReplicationAction.process
        ⟨[], fun _ => [[("Contents", [[("Key", Val.str "k1")]])]], fun _ => [],
          fun _ => Option.none⟩ [("bucket", Val.str "b1")]).1.head? =
      some (S3Call.getBucketReplication (Val.str "b1")) ∧
    (ListReplicationAction.process
        ⟨[], fun _ => [[("Contents", [[("Key", Val.str "k1")]])]], fun _ => [],
          fun _ => Option.none⟩ [("bucket", Val.str "b1")]).2 = .ok [] ∧
    (ListReplicationAction.process
        ⟨[], fun _ => [[("Contents", [[("Key", Val.str "k1")]])]], fun _ => [],
          fun _ => Option.none⟩ [("bucket", Val.str "b1")]).1 =
      [S3Call.getBucketReplication (Val.str "b1")] := by
  have h := C6_replication_gate
    ⟨[], fun _ => [[("Contents", [[("Key", Val.str "k1")]])]], fun _ => [],
      fun _ => Option.none⟩ [("bucket", Val.str "b1")] "b1" rfl
  exact ⟨h.1, (h.2 rfl).1, (h.2 rfl).2⟩

lemma ListVersionAction.drainPage_eq_map (b : Val) (ctx : Option Ctx) :
    ∀ l : List Record, ListVersionAction.drainPage b ctx l =
      l.map (fun v => ⟨ResultKind.objectVersion, dictSet v "_bucket" b, ctx⟩) := by
  intro l
  induction l with
  | nil => rfl
  | cons v rest ih => simp [ListVersionAction.drainPage, ih]

lemma ListVersionAction.drain_eq_bind (b : Val) (ctx : Option Ctx) :
    ∀ pages : List Page, ListVersionAction.drain b ctx pages =
      pages.flatMap (fun p => (ListVersionAction.pageItems p).map
        (fun v => ⟨ResultKind.objectVersion, dictSet v "_bucket" b, ctx⟩)) := by
  intro pages
  induction pages with
  | nil => rfl
  | cons p ps ih =>
    simp [ListVersionAction.drain, ih, ListVersionAction.drainPage_eq_map,
      List.flatMap_cons]

lemma pageItems_getD (p : Page) :
    ListVersionAction.pageItems p =
      ((alookup p "Versions").getD []) ++ ((alookup p "DeleteMarkers").getD []) := by
  unfold ListVersionAction.pageItems
  cases alookup p "Versions" <;> cases alookup p "DeleteMarkers" <;> rfl

/-- Claim C7 (confirmed): for every page drained by the version listing, the
yielded records are the page's `Versions` entries followed by its
`DeleteMarkers` entries (each treated as empty when absent), in page order,
and every yielded record carries the `_bucket` tag with the owning bucket. -/
theorem C7_version_listing (s : S3) (ctx : Option Ctx) (kw : Kwargs) :
    (ListVersionAction.process s ctx kw).2 =
      .ok ((s.versionPages (pyGet kw "bucket")).flatMap (fun p =>
        (((alookup p "Versions").getD []) ++
          ((alookup p "DeleteMarkers").getD [])).map
          (fun v => ⟨ResultKind.objectVersion,
            dictSet v "_bucket" (pyGet kw "bucket"), ctx⟩))) ∧
    ∀ r ∈ ListVersionAction.drain (pyGet kw "bucket") ctx
        (s.versionPages (pyGet kw "bucket")),
      alookup r.record "_bucket" = some (pyGet kw "bucket") := by
  constructor
  · have h0 : (ListVersionAction.process s ctx kw).2 =
        .ok (ListVersionAction.drain (pyGet kw "bucket") ctx
          (s.versionPages (pyGet kw "bucket"))) := rfl
    rw [h0, ListVersionAction.drain_eq_bind]
    have hfun : (fun p => (ListVersionAction.pageItems p).map
        (fun v => (⟨ResultKind.objectVersion,
          dictSet v "_bucket" (pyGet kw "bucket"), ctx⟩ : SResult))) =
        (fun p => (((alookup p "Versions").getD []) ++
          ((alookup p "DeleteMarkers").getD [])).map
          (fun v => ⟨ResultKind.objectVersion,
            dictSet v "_bucket" (pyGet kw "bucket"), ctx⟩)) :=
      funext fun p => by rw [pageItems_getD]
    rw [hfun]
  · intro r hr
    rw [ListVersionAction.drain_eq_bind] at hr
    rw [List.mem_flatMap] at hr
    obtain ⟨p, _, hr⟩ := hr
    rw [List.mem_map] at hr
    obtain ⟨v, _, hveq⟩ := hr
    rw [← hveq]
    exact alookup_dictSet_self v "_bucket" (pyGet kw "bucket")

/-- Witness for C7 at the spec's scenario: a page with `Versions` but no
`DeleteMarkers` yields exactly the `Versions` entries, tagged with the
bucket. -/
theorem C7_witness :
    (ListVersionAction.process
        ⟨[], fun _ => [], fun _ => [[("Versions", [[("Key", Val.str "v1")]])]],
          fun _ => Option.none⟩ Option.none [("bucket", Val.str "pb")]).2 =
      .ok [⟨ResultKind.objectVersion,
        [("Key", Val.str "v1"), ("_bucket", Val.str "pb")], Option.none⟩] ∧
    alookup (⟨ResultKind.objectVersion,
        [("Key", Val.str "v1"), ("_bucket", Val.str "pb")],
        Option.none⟩ : SResult).record "_bucket" = some (Val.str "pb") := by
  have h := C7_version_listing
    ⟨[], fun _ => [], fun _ => [[("Versions", [[("Key", Val.str "v1")]])]],
      fun _ => Option.none⟩ Option.none [("bucket", Val.str "pb")]
  exact ⟨h.1, h.2 ⟨ResultKind.objectVersion,
    [("Key", Val.str "v1"), ("_bucket", Val.str "pb")], Option.none⟩ (by decide)⟩

lemma bucketsOf_ok (s : S3) :
    ∀ (recs l : List Record),
      (ListReplicationAction.bucketsOf s recs).2 = .ok l →
      l = recs.filter (fun rec => hasRepl s rec) := by
  intro recs
  induction recs with
  | nil =>
    intro l h
    simp only [ListReplicationAction.bucketsOf, Except.ok.injEq] at h
    simp [← h]
  | cons bucket rest ih =>
    intro l h
    unfold ListReplicationAction.bucketsOf at h
    cases hn : alookup bucket "Name" with
    | none =>
      simp only [hn] at h
      exact Except.noConfusion h
    | some nm =>
      simp only [hn] at h
      cases hrep : s3api.get_bucket_replication s nm with
      | some cfg =>
        simp only [hrep] at h
        cases hb2 : (ListReplicationAction.bucketsOf s rest).2 with
        | error e =>
          simp only [hb2, Except.map] at h
          exact Except.noConfusion h
        | ok l0 =>
          simp only [hb2, Except.map, Except.ok.injEq] at h
          have hhas : hasRepl s bucket = true := by
            unfold hasRepl
            simp [hn, hrep]
          rw [← h, ih l0 hb2, List.filter_cons, if_pos hhas]
      | none =>
        simp only [hrep] at h
        have hhas : hasRepl s bucket = false := by
          unfold hasRepl
          simp [hn, hrep]
        rw [ih l h, List.filter_cons, if_neg (by simp [hhas])]

lemma drainBuckets_ok (s : S3) :
    ∀ (pages : List Page) (l : List Record),
      (ListReplicationAction.drainBuckets s pages).2 = .ok l →
      l = (pages.flatMap (fun p => (alookup p "Buckets").getD [])).filter
        (fun rec => hasRepl s rec) := by
  intro pages
  induction pages with
  | nil =>
    intro l h
    simp only [ListReplicationAction.drainBuckets, Except.ok.injEq] at h
    simp [← h]
  | cons p ps ih =>
    intro l h
    unfold ListReplicationAction.drainBuckets at h
    cases hB : alookup p "Buckets" with
    | none =>
      simp only [hB] at h
      exact Except.noConfusion h
    | some recs =>
      simp only [hB] at h
      cases hb2 : (ListReplicationAction.bucketsOf s recs).2 with
      | error e =>
        simp only [hb2] at h
        exact Except.noConfusion h
      | ok l1 =>
        simp only [hb2] at h
        cases hd : (ListReplicationAction.drainBuckets s ps).2 with
        | error e =>
          simp only [hd, Except.map] at h
          exact Except.noConfusion h
        | ok l2 =>
          simp only [hd, Except.map, Except.ok.injEq] at h
          rw [← h, bucketsOf_ok s recs l1 hb2, ih l2 hd, List.flatMap_cons,
            List.filter_append]
          simp [hB]

/-- Claim C8 (confirmed): a bucket-scoped replication listing yields exactly
one bucket-kind result for each listed bucket whose replication side query
returns a non-null configuration, and none for a bucket whose side query
returns null — the output equals the listed buckets filtered by a non-null
side-query result, wrapped as bucket results. -/
theorem C8_replication_bucket_scoped (s : S3) (kw : Kwargs) (out : List SResult)
    (hb : pyGet kw "bucket" = Val.none)
    (hok : (ListReplicationAction.process s kw).2 = .ok out) :
    out = ((s.bucketPages.flatMap (fun p => (alookup p "Buckets").getD [])).filter
        (fun rec => hasRepl s rec)).map
      (fun rec => ⟨ResultKind.bucket, rec, Option.none⟩) := by
  unfold ListReplicationAction.process ListReplicationAction.list_buckets
    extract_from_noun s3api.ls at hok
  simp only [hb] at hok
  simp only [ne_eq, not_true_eq_false, if_false, Bool.false_eq_true] at hok
  cases hd : (ListReplicationAction.drainBuckets s s.bucketPages).2 with
  | error e => rw [hd] at hok; simp [Except.map] at hok
  | ok l =>
    rw [hd] at hok
    simp only [Except.map, Except.ok.injEq] at hok
    rw [← hok, drainBuckets_ok s s.bucketPages l hd]

/-- A demonstration backend for the replication-listing witness: three listed
buckets of which only `b2` has a replication configuration. -/
def s3demo : S3 :=
  { bucketPages := [[("Buckets", [[("Name", Val.str "b1")], [("Name", Val.str "b2")],
      [("Name", Val.str "b3")]])]]
    objectPages := fun _ => []
    versionPages := fun _ => []
    replication := fun b => if b = Val.str "b2" then some [("Role", Val.str "r")]
      else Option.none }

/-- Witness for C8 at the spec's scenario: of three listed buckets only one
has a non-null replication configuration, so the output is exactly one
bucket-kind record. -/
theorem C8_witness :
    ([⟨ResultKind.bucket, [("Name", Val.str "b2")], Option.none⟩] : List SResult) =
      ((s3demo.bucketPages.flatMap (fun p => (alookup p "Buckets").getD [])).filter
        (fun rec => hasRepl s3demo rec)).map
      (fun rec => ⟨ResultKind.bucket, rec, Option.none⟩) :=
  C8_replication_bucket_scoped s3demo []
    [⟨ResultKind.bucket, [("Name", Val.str "b2")], Option.none⟩] rfl rfl
